import Mathlib

/-!
Verification of the RiskToNIST risk-aggregation and prioritization core.

Shallow embedding of:
- `utils/map_risks.py` — `load_nist_controls` (the catalog-derived control
  dictionary), `map_risks_to_controls` (the aggregator) and
  `normalize_and_prioritize` (the prioritization scorer);
- the control-identifier normalizer of `src/data_processing.py`, line 79
  (`re.sub(r'^([a-zA-Z]+)-0*(\d+)$', r'\1-\2', control.upper())`);
- the fixed key set of the per-control dictionaries, against which
  `main.py` `write_outputs` (line 87) performs its `risk_contexts` lookup.

Modelling conventions:
- Python `str` is modelled as `List Char`; `str.upper()` as the ASCII case
  map (the identifiers, source names and CWE codes handled by the program
  are ASCII), and the regex classes `[a-zA-Z]` / `\d` as their ASCII ranges.
- Python floats are modelled as `ℚ` (the scores and weights are plain
  decimal data; no claim here depends on binary floating-point rounding).
- Python dicts are modelled as insertion-ordered association lists:
  assignment to an existing key replaces the value in place, assignment to
  a fresh key appends.
- File and network I/O (`load_nist_controls` lines 15–31,
  `load_attack_mappings`) is out of the embedded core: the parsed catalog
  and ATT&CK mapping data are parameters of the embedded functions.
- `list(set(...))` (map_risks.py line 126) iterates in an unspecified
  order; it is modelled as a first-occurrence deduplication.  Every
  property proved below is insensitive to that order choice, because the
  per-control updates are commutative and idempotent max operations.
-/

namespace RiskToNIST

/-- Python `str` modelled as its list of characters. -/
abbrev Str := List Char

/-- ASCII uppercase of one character, modelling Python `str.upper` per
character on the ASCII inputs the program handles. -/
def upperChar (c : Char) : Char :=
  if 97 ≤ c.toNat ∧ c.toNat ≤ 122 then Char.ofNat (c.toNat - 32) else c

/-- Python `s.upper()` on the modelled string. -/
def upperStr (s : Str) : Str := s.map upperChar

/-- Helper for `containsStr`: does `hay` start with `needle`? -/
def startsWithStr : Str → Str → Bool
  | _, [] => true
  | [], _ :: _ => false
  | c :: cs, d :: ds => c == d && startsWithStr cs ds

/-- Python substring test `needle in hay` on strings. -/
def containsStr : Str → Str → Bool
  | [], needle => startsWithStr [] needle
  | c :: cs, needle => startsWithStr (c :: cs) needle || containsStr cs needle

/-- Membership test of a key in a Python dict modelled as an association
list (`k in d`). -/
def containsKey (m : List (Str × α)) (k : Str) : Bool :=
  m.any (fun p => decide (p.1 = k))

/-- Lookup `d[k]` in a Python dict modelled as an association list. -/
def lookupKey (m : List (Str × α)) (k : Str) : Option α :=
  (m.find? (fun p => decide (p.1 = k))).map (fun p => p.2)

/-- Python dict assignment `d[k] = v`: replaces the value in place when the
key exists, appends a new binding otherwise. -/
def dictSet (m : List (Str × α)) (k : Str) (v : α) : List (Str × α) :=
  if containsKey m k then m.map (fun p => if p.1 = k then (k, v) else p)
  else m ++ [(k, v)]

/-- Python `max` on two scores: `max(a, b)` returns `a` when `a ≥ b`. -/
def pyMax (a b : ℚ) : ℚ := if b ≤ a then a else b

/-- One uniform risk record, the shape produced by the `utils/parse.py`
adapters and consumed by `map_risks_to_controls` (which reads
`mitigating_controls`, `exploitation_score`, `impact_score` and `cwe`;
`cve_id` is carried for reporting). -/
structure Risk where
  mitigating_controls : List Str
  exploitation_score : ℚ
  impact_score : ℚ
  cwe : Str := []
  cve_id : Str := []
deriving DecidableEq, Inhabited

/-- The per-control detail record built by `load_nist_controls`
(map_risks.py lines 38–45) and mutated by `map_risks_to_controls`
(lines 131–138). -/
structure Ctl where
  title : Str
  family_id : Str
  family_title : Str
  applicability : ℚ
  max_exploitation : ℚ
  max_severity : ℚ
deriving DecidableEq, Inhabited

/-- One control of the parsed OSCAL catalog (`control["id"]`,
`control["title"]`). -/
structure CatControl where
  id : Str
  title : Str
deriving DecidableEq, Inhabited

/-- One group (family) of the parsed OSCAL catalog (`group["id"]`,
`group["title"]`, `group["controls"]`). -/
structure CatGroup where
  id : Str
  title : Str
  controls : List CatControl
deriving DecidableEq, Inhabited

/-- Embedding of `load_nist_controls` (map_risks.py lines 32–47), as a function of the
parsed OSCAL catalog: builds the dictionary of upper-cased control ids to
detail records with static applicability 7.0 and zero running maxima.  The
download and JSON-parsing error paths (lines 15–31, 48–50) are the I/O
shell around this core and are not embedded. -/
def load_nist_controls (catalog : List CatGroup) : List (Str × Ctl) :=
  catalog.foldl
    (fun controls group =>
      group.controls.foldl
        (fun controls control =>
          dictSet controls (upperStr control.id)
            { title := control.title
              family_id := group.id
              family_title := group.title
              applicability := 7
              max_exploitation := 0
              max_severity := 0 })
        controls)
    []

/-- First-occurrence deduplication, modelling `list(set(...))`
(map_risks.py line 126; Python set order is unspecified, and the
aggregation result is insensitive to the choice). -/
def pyDedup (l : List Str) : List Str :=
  l.foldl (fun acc x => if x ∈ acc then acc else acc ++ [x]) []

/-- The ATT&CK-mapping enhancement of a risk's `mitigating_controls`
(map_risks.py lines 105–126): for the `nvd_cve`, `cisa_kev` and `fallback`
sources, when ATT&CK mappings are present, controls of the technique
matched by the risk's CWE substring are appended and the list is
deduplicated. -/
def controlsToMap (am : List (Str × List Str)) (source_name : Str)
    (risk : Risk) : List Str :=
  if (source_name = "nvd_cve".data ∨ source_name = "cisa_kev".data ∨
      source_name = "fallback".data) ∧ am ≠ [] then
    let ext :=
      if containsStr risk.cwe "CWE-22".data then
        (lookupKey am "T1190".data).getD []
      else if containsStr risk.cwe "CWE-79".data then
        (lookupKey am "T1566".data).getD []
      else if containsStr risk.cwe "CWE-94".data ||
          containsStr risk.cwe "CWE-288".data ||
          containsStr risk.cwe "CWE-502".data ||
          containsStr risk.cwe "CWE-78".data ||
          containsStr risk.cwe "CWE-287".data then
        (lookupKey am "T1078".data).getD []
      else if containsStr risk.cwe "CWE-416".data then
        (lookupKey am "T1203".data).getD []
      else []
    pyDedup (risk.mitigating_controls ++ ext)
  else risk.mitigating_controls

/-- The per-control update of map_risks.py lines 131–138: raise the running
maxima to the risk's exploitation and impact scores. -/
def bump (risk : Risk) (c : Ctl) : Ctl :=
  { c with
    max_exploitation := pyMax c.max_exploitation risk.exploitation_score
    max_severity := pyMax c.max_severity risk.impact_score }

/-- The body of the `for control_id in controls_to_map` loop
(map_risks.py lines 128–141): upper-case the id, update the maxima when the
id is a catalog key, otherwise only log a warning (a no-op on the data). -/
def applyControl (risk : Risk) (m : List (Str × Ctl)) (control_id : Str) :
    List (Str × Ctl) :=
  let cid := upperStr control_id
  if containsKey m cid then
    m.map (fun p => if p.1 = cid then (p.1, bump risk p.2) else p)
  else m

/-- Processing of one risk record from one source
(map_risks.py lines 104–141). -/
def applyRisk (am : List (Str × List Str)) (m : List (Str × Ctl))
    (source_name : Str) (risk : Risk) : List (Str × Ctl) :=
  (controlsToMap am source_name risk).foldl (applyControl risk) m

/-- Embedding of `map_risks_to_controls` (map_risks.py lines 89–146) as a function of
the parsed catalog, the parsed ATT&CK mappings and the per-source risk
lists: the double loop over sources and risks folding `applyRisk` over the
catalog-initialized control dictionary.  (The Python function returns the
pair `(controls, attack_mappings)`; the second component is the unchanged
`am` parameter, so only the first is modelled.) -/
def map_risks_to_controls (catalog : List CatGroup)
    (am : List (Str × List Str)) (all_risks : List (Str × List Risk)) :
    List (Str × Ctl) :=
  all_risks.foldl
    (fun m p => p.2.foldl (fun m r => applyRisk am m p.1 r) m)
    (load_nist_controls catalog)

/-- The flattened stream of (source name, risk record) pairs that the
double loop of `map_risks_to_controls` visits, in visiting order. -/
def flattenRisks (all_risks : List (Str × List Risk)) : List (Str × Risk) :=
  all_risks.foldr (fun p acc => p.2.map (fun r => (p.1, r)) ++ acc) []

/-- Aggregation as a single fold over the flattened (source, risk) stream;
`map_risks_eq_flat` below proves it equal to `map_risks_to_controls`. -/
def mapRisksFlat (catalog : List CatGroup) (am : List (Str × List Str))
    (l : List (Str × Risk)) : List (Str × Ctl) :=
  l.foldl (fun m p => applyRisk am m p.1 p.2) (load_nist_controls catalog)

/-- The weight configuration dict `{exploitation, severity,
applicability}`. -/
structure Weights where
  exploitation : ℚ
  severity : ℚ
  applicability : ℚ
deriving DecidableEq, Inhabited

/-- Python's `sum(weights.values())` (map_risks.py line 158). -/
def weightsSum (w : Weights) : ℚ :=
  w.exploitation + w.severity + w.applicability

/-- The total score of one control (map_risks.py lines 166–170). -/
def totalScore (w : Weights) (c : Ctl) : ℚ :=
  w.exploitation * c.max_exploitation + w.severity * c.max_severity +
    w.applicability * c.applicability

/-- One element of the prioritized output: a `(control_id, details)` pair
whose details carry the computed `total_score` (map_risks.py line 166). -/
structure Scored where
  control_id : Str
  ctl : Ctl
  total_score : ℚ
deriving DecidableEq, Inhabited

/-- Stable descending insertion: place `x` before the first element whose
score does not exceed `x`'s. -/
def insertDesc (x : Scored) : List Scored → List Scored
  | [] => [x]
  | y :: ys =>
    if y.total_score ≤ x.total_score then x :: y :: ys
    else y :: insertDesc x ys

/-- Python's `sorted(controls.items(), key=lambda x: x[1]["total_score"],
reverse=True)` (map_risks.py line 172): a stable sort, descending by total
score. -/
def sortDesc (l : List Scored) : List Scored := l.foldr insertDesc []

/-- The error message of the `ValueError` raised at map_risks.py
line 161. -/
def weightsErrMsg : String := "Weights must sum to 1.0"

/-- Embedding of `normalize_and_prioritize` (map_risks.py lines 148–174): validate that
the weights sum to 1.0 within 0.01 (raising a configuration error before
any score is computed), compute each control's total score, and return the
controls sorted by total score descending. -/
def normalize_and_prioritize (controls : List (Str × Ctl)) (w : Weights) :
    Except String (List Scored) :=
  if |weightsSum w - 1| > 1 / 100 then Except.error weightsErrMsg
  else
    Except.ok (sortDesc (controls.map
      (fun p => { control_id := p.1, ctl := p.2,
                  total_score := totalScore w p.2 })))

/-- Rounding to 2 decimal places, as the display layer applies to scores
(`round(..., 2)` at main.py line 115; the exact behaviour at ties is
irrelevant to its uses below). -/
def round2 (q : ℚ) : ℚ := (round (q * 100) : ℚ) / 100

/-- The keys of the per-control dict literal built by `load_nist_controls`
(map_risks.py lines 38–45).  `map_risks_to_controls` assigns only to the
existing keys `max_exploitation` and `max_severity` (lines 131, 135), and
`normalize_and_prioritize` adds exactly `total_score` (line 166). -/
def ctlDictKeys : List Str :=
  ["title".data, "family_id".data, "family_title".data,
   "applicability".data, "max_exploitation".data, "max_severity".data]

/-- The keys of a per-control dict after `normalize_and_prioritize` has
stored `total_score` (map_risks.py line 166). -/
def scoredDictKeys : List Str := ctlDictKeys ++ ["total_score".data]

/-- The key read unconditionally from every prioritized control's details
by `write_outputs` (main.py line 87: `details['risk_contexts']`). -/
def riskContextsKey : Str := "risk_contexts".data

/-- The leading-zero stripping performed by the regex replacement `\1-\2`
of `re.sub(r'^([a-zA-Z]+)-0*(\d+)$', ...)` (data_processing.py line 79):
the greedy `0*` swallows leading zeros but leaves at least one digit for
`\d+`. -/
def stripLeadingZeros (num : Str) : Str :=
  let t := num.dropWhile (fun c => c == '0')
  if t.isEmpty then ['0'] else t

/-- ASCII letter test, the regex class `[a-zA-Z]`. -/
def isAsciiAlpha (c : Char) : Bool :=
  (65 ≤ c.toNat && c.toNat ≤ 90) || (97 ≤ c.toNat && c.toNat ≤ 122)

/-- ASCII digit test, the regex class `\d` on the ASCII identifiers
handled by the program. -/
def isAsciiDigit (c : Char) : Bool := 48 ≤ c.toNat && c.toNat ≤ 57

/-- Matching of the anchored regex `^([a-zA-Z]+)-0*(\d+)$` against an
(already upper-cased) identifier: the match succeeds exactly when the
string splits as a nonempty all-letter family, a dash, and a nonempty
all-digit number; the two capture groups are returned. -/
def famNum (u : Str) : Option (Str × Str) :=
  let fam := u.takeWhile (fun c => c != '-')
  match u.dropWhile (fun c => c != '-') with
  | '-' :: num =>
    if !fam.isEmpty && fam.all isAsciiAlpha && !num.isEmpty &&
        num.all isAsciiDigit
    then some (fam, num) else none
  | _ => none

/-- The control-identifier normalizer of data_processing.py line 79:
`re.sub(r'^([a-zA-Z]+)-0*(\d+)$', r'\1-\2', control.upper())` — upper-case
the identifier, and when it has the FAMILY-NUMBER shape, strip the
number's leading zeros; otherwise return the upper-cased identifier
unchanged. -/
def normalizeControlId (control : Str) : Str :=
  let u := upperStr control
  match famNum u with
  | some (fam, num) => fam ++ '-' :: stripLeadingZeros num
  | none => u

/-- Example catalog: the single family "Access Control" with the single
control `ac-2`, as parsed from an OSCAL catalog document. -/
def catAC : List CatGroup :=
  [{ id := "ac".data, title := "Access Control".data,
     controls := [{ id := "ac-2".data, title := "Account Management".data }] }]

/-- The first end-to-end scenario record of the spec: finding F-1 with
exploitation 9.0, impact 8.0, mitigating control `AC-02`. -/
def riskF1 : Risk :=
  { mitigating_controls := ["AC-02".data], exploitation_score := 9,
    impact_score := 8, cve_id := "F-1".data }

/-- The second end-to-end scenario record of the spec: finding F-2 with
exploitation 5.0, impact 9.0, mitigating control `AC-2`. -/
def riskF2 : Risk :=
  { mitigating_controls := ["AC-2".data], exploitation_score := 5,
    impact_score := 9, cve_id := "F-2".data }

/-- A record with a small exploitation score whose weighted total has more
than two decimal places. -/
def riskSmall : Risk :=
  { mitigating_controls := ["AC-2".data], exploitation_score := 3 / 100,
    impact_score := 0, cve_id := "F-3".data }

/-- A record naming a control identifier absent from `catAC`. -/
def riskUnknown : Risk :=
  { mitigating_controls := ["XX-99".data], exploitation_score := 9,
    impact_score := 9, cve_id := "F-4".data }

/-- The claim's passing weight configuration {0.4, 0.4, 0.2}. -/
def weights442 : Weights :=
  { exploitation := 2 / 5, severity := 2 / 5, applicability := 1 / 5 }

/-- The claim's failing weight configuration {0.5, 0.5, 0.5}. -/
def weights555 : Weights :=
  { exploitation := 1 / 2, severity := 1 / 2, applicability := 1 / 2 }

/-- A key is found by `lookupKey` exactly when `containsKey` holds. -/
theorem lookupKey_isSome_eq_containsKey (m : List (Str × α)) (k : Str) :
    (lookupKey m k).isSome = containsKey m k := by
  induction m with
  | nil => rfl
  | cons p t ih =>
    simp only [lookupKey, containsKey, List.find?, List.any] at ih ⊢
    cases h : decide (p.1 = k)
    · simpa [h] using ih
    · simp [h]

/-- Key membership depends only on the key list of the dictionary. -/
theorem containsKey_eq_keys (m : List (Str × α)) (k : Str) :
    containsKey m k = (m.map Prod.fst).any (fun x => decide (x = k)) := by
  induction m with
  | nil => rfl
  | cons p t ih => simp [containsKey, List.any_cons] at ih ⊢; rw [ih]

/-- The step `applyControl` never changes the key list of the control dictionary:
it either maps values in place or leaves the list untouched. -/
theorem keys_applyControl (r : Risk) (m : List (Str × Ctl)) (c : Str) :
    (applyControl r m c).map Prod.fst = m.map Prod.fst := by
  simp only [applyControl]
  split
  · rw [List.map_map]
    apply List.map_congr_left
    intro p _
    by_cases hp : p.1 = upperStr c <;> simp [hp]
  · rfl

/-- Folding `applyControl` over any id list preserves the key list. -/
theorem keys_foldl_applyControl (r : Risk) (L : List Str) :
    ∀ m : List (Str × Ctl),
      ((L.foldl (applyControl r) m).map Prod.fst) = m.map Prod.fst := by
  induction L with
  | nil => intro m; rfl
  | cons c cs ih => intro m; rw [List.foldl_cons, ih, keys_applyControl]

/-- The step `applyRisk` preserves the key list. -/
theorem keys_applyRisk (am : List (Str × List Str)) (m : List (Str × Ctl))
    (s : Str) (r : Risk) : (applyRisk am m s r).map Prod.fst = m.map Prod.fst :=
  keys_foldl_applyControl r _ m

/-- Processing one source's risk list preserves the key list. -/
theorem keys_foldl_applyRisk (am : List (Str × List Str)) (s : Str)
    (rl : List Risk) : ∀ m : List (Str × Ctl),
      ((rl.foldl (fun m r => applyRisk am m s r) m).map Prod.fst) =
        m.map Prod.fst := by
  induction rl with
  | nil => intro m; rfl
  | cons r t ih => intro m; rw [List.foldl_cons, ih, keys_applyRisk]

/-- The outer source fold of the aggregator preserves the key list from
any starting dictionary. -/
theorem keys_foldl_sources (am : List (Str × List Str))
    (t : List (Str × List Risk)) :
    ∀ m : List (Str × Ctl),
      ((t.foldl (fun m q => q.2.foldl (fun m r => applyRisk am m q.1 r) m)
          m).map Prod.fst) = m.map Prod.fst := by
  induction t with
  | nil => intro m; rfl
  | cons q u ih => intro m; rw [List.foldl_cons, ih, keys_foldl_applyRisk]

/-- The aggregator's key list is exactly the catalog dictionary's key
list: risks naming unknown controls never add keys
(map_risks.py lines 130, 140–141). -/
theorem keys_map_risks (cat : List CatGroup) (am : List (Str × List Str))
    (rs : List (Str × List Risk)) :
    (map_risks_to_controls cat am rs).map Prod.fst =
      (load_nist_controls cat).map Prod.fst :=
  keys_foldl_sources am rs (load_nist_controls cat)

/-- Lookup success in the aggregate is lookup success in the loaded
catalog dictionary. -/
theorem agg_lookup_isSome (cat : List CatGroup) (am : List (Str × List Str))
    (rs : List (Str × List Risk)) (cid : Str) :
    (lookupKey (map_risks_to_controls cat am rs) cid).isSome =
      (lookupKey (load_nist_controls cat) cid).isSome := by
  rw [lookupKey_isSome_eq_containsKey, lookupKey_isSome_eq_containsKey,
    containsKey_eq_keys, containsKey_eq_keys, keys_map_risks]

/-- C10: every key of the aggregator's result is a key of the loaded
control catalog, and conversely — a risk record naming a control
identifier not in the catalog never adds a new key, so the result's key
set equals the catalog dictionary's key set. -/
theorem c10_result_keys_eq_catalog_keys (cat : List CatGroup)
    (am : List (Str × List Str)) (rs : List (Str × List Risk)) (cid : Str) :
    (lookupKey (map_risks_to_controls cat am rs) cid).isSome =
      (lookupKey (load_nist_controls cat) cid).isSome :=
  agg_lookup_isSome cat am rs cid

/-- C7 (counterexample): a risk record naming the control `XX-99`, absent
from the catalog, does NOT produce a control aggregate for that
identifier — the lookup comes back empty, contradicting the claimed
`title == control_id` / `family_title == "Unknown"` fallback entry. -/
theorem c7_counterexample :
    lookupKey (map_risks_to_controls catAC []
      [("test".data, [riskUnknown])]) "XX-99".data = none := by decide

/-- C7 (amended): a risk record naming a control identifier absent from
the catalog contributes nothing for that identifier — the miss is only
logged (map_risks.py line 141) and no control aggregate is created, so
the identifier is absent from the aggregator's result. -/
theorem c7_amended_catalog_miss_skipped (cat : List CatGroup)
    (am : List (Str × List Str)) (rs : List (Str × List Risk)) (cid : Str)
    (h : containsKey (load_nist_controls cat) cid = false) :
    lookupKey (map_risks_to_controls cat am rs) cid = none := by
  have h2 := agg_lookup_isSome cat am rs cid
  rw [lookupKey_isSome_eq_containsKey (load_nist_controls cat) cid, h] at h2
  exact Option.not_isSome_iff_eq_none.mp (by simp [h2])

/-- C7 (witness): the amended statement applied to the concrete
catalog-miss scenario. -/
theorem c7_amended_witness :
    lookupKey (map_risks_to_controls catAC []
      [("test".data, [riskUnknown])]) "XX-99".data = none :=
  c7_amended_catalog_miss_skipped catAC [] [("test".data, [riskUnknown])]
    "XX-99".data (by decide)

/-- C8 (counterexample): aggregation over an empty risk mapping does NOT
return an empty mapping — it returns the full catalog dictionary, here
containing the `AC-2` entry. -/
theorem c8_counterexample :
    map_risks_to_controls catAC [] [] ≠ [] := by decide

/-- C8 (amended): aggregation over an empty risk mapping returns the
loaded catalog dictionary unchanged (one zero-score aggregate per catalog
control — empty only when the catalog itself is empty), and the
prioritization scorer on an empty aggregate mapping with valid weights
returns the empty ordered sequence rather than an error. -/
theorem c8_amended_empty_inputs (cat : List CatGroup)
    (am : List (Str × List Str)) (w : Weights) :
    map_risks_to_controls cat am [] = load_nist_controls cat ∧
      (|weightsSum w - 1| ≤ 1 / 100 →
        normalize_and_prioritize [] w = Except.ok []) := by
  constructor
  · rfl
  · intro h
    unfold normalize_and_prioritize
    rw [if_neg (not_lt.mpr h)]
    rfl

/-- C8 (witness): the amended statement at the concrete one-control
catalog and the valid weights {0.4, 0.4, 0.2}. -/
theorem c8_amended_witness :
    map_risks_to_controls catAC [] [] = load_nist_controls catAC ∧
      normalize_and_prioritize [] weights442 = Except.ok [] :=
  ⟨(c8_amended_empty_inputs catAC [] weights442).1,
   (c8_amended_empty_inputs catAC [] weights442).2
     (by norm_num [weightsSum, weights442])⟩

/-- C9 (code bug): the per-control dictionaries carry no `risk_contexts`
key at any point — neither among the keys created by
`load_nist_controls`/`map_risks_to_controls` nor after
`normalize_and_prioritize` adds `total_score` — although
`write_outputs` (main.py line 87) reads `details['risk_contexts']`
unconditionally from every prioritized entry. -/
theorem c9_no_risk_contexts_key :
    riskContextsKey ∉ scoredDictKeys := by decide

/-- C4 (code bug, evaluation at the failing input): aggregating the two
end-to-end scenario records yields `AC-2` with `max_exploitation = 5.0`
(not 9.0: F-1's `AC-02` is only upper-cased, not zero-stripped, misses the
catalog and is dropped) and `max_severity = 9.0`; no `AC-02` aggregate
exists, and no risk contexts are tracked at all (see
`c9_no_risk_contexts_key`). -/
theorem c4_failing_eval :
    lookupKey (map_risks_to_controls catAC []
        [("test".data, [riskF1, riskF2])]) "AC-2".data =
      some ⟨"Account Management".data, "ac".data, "Access Control".data,
        7, 5, 9⟩ ∧
    lookupKey (map_risks_to_controls catAC []
        [("test".data, [riskF1, riskF2])]) "AC-02".data = none := by
  constructor
  · norm_num +decide [map_risks_to_controls, load_nist_controls, catAC,
      dictSet, containsKey, upperStr, upperChar, applyRisk, applyControl,
      controlsToMap, riskF1, riskF2, bump, pyMax, lookupKey, List.find?]
  · decide

/-- Membership in a descending insertion. -/
theorem mem_insertDesc (x a : Scored) (l : List Scored) :
    x ∈ insertDesc a l ↔ x = a ∨ x ∈ l := by
  induction l with
  | nil => simp [insertDesc]
  | cons y ys ih =>
    unfold insertDesc
    split
    · simp
    · simp [ih]
      tauto

/-- Membership is preserved by the stable descending sort. -/
theorem mem_sortDesc (x : Scored) (l : List Scored) :
    x ∈ sortDesc l ↔ x ∈ l := by
  induction l with
  | nil => simp [sortDesc]
  | cons a t ih =>
    show x ∈ insertDesc a (sortDesc t) ↔ _
    rw [mem_insertDesc, ih]
    simp

/-- Descending insertion preserves the descending pairwise order. -/
theorem pairwise_insertDesc (a : Scored) (l : List Scored)
    (h : List.Pairwise (fun x y => y.total_score ≤ x.total_score) l) :
    List.Pairwise (fun x y => y.total_score ≤ x.total_score)
      (insertDesc a l) := by
  induction l with
  | nil => simp [insertDesc]
  | cons y ys ih =>
    rw [List.pairwise_cons] at h
    unfold insertDesc
    split
    · rename_i hc
      rw [List.pairwise_cons]
      constructor
      · intro z hz
        rcases List.mem_cons.mp hz with rfl | hz'
        · exact hc
        · exact le_trans (h.1 z hz') hc
      · exact List.pairwise_cons.mpr h
    · rename_i hc
      rw [List.pairwise_cons]
      constructor
      · intro z hz
        rcases (mem_insertDesc z a ys).mp hz with rfl | hz'
        · exact le_of_not_le hc
        · exact h.1 z hz'
      · exact ih h.2

/-- The stable descending sort produces a list that is pairwise
descending in `total_score`. -/
theorem sortDesc_pairwise (l : List Scored) :
    List.Pairwise (fun x y => y.total_score ≤ x.total_score)
      (sortDesc l) := by
  induction l with
  | nil => simp [sortDesc]
  | cons a t ih => exact pairwise_insertDesc a (sortDesc t) ih

/-- C2: the prioritization scorer raises its configuration error exactly
when the weights sum differs from 1.0 by more than 0.01
(map_risks.py lines 158–161); for every aggregate mapping, the weights
{0.4, 0.4, 0.2} pass validation and {0.5, 0.5, 0.5} raise the
`ValueError` — whose value does not depend on the controls, since the
check precedes all score computation. -/
theorem c2_weight_validation (controls : List (Str × Ctl)) (w : Weights) :
    ((normalize_and_prioritize controls w).isOk = false ↔
      |weightsSum w - 1| > 1 / 100) ∧
    (normalize_and_prioritize controls weights442).isOk = true ∧
    normalize_and_prioritize controls weights555 =
      Except.error weightsErrMsg := by
  refine ⟨?_, ?_, ?_⟩
  · unfold normalize_and_prioritize
    by_cases h : |weightsSum w - 1| > 1 / 100
    · rw [if_pos h]
      simpa [Except.isOk, Except.toBool] using h
    · rw [if_neg h]
      simpa [Except.isOk, Except.toBool] using h
  · have e0 : weightsSum weights442 - 1 = 0 := by
      norm_num [weightsSum, weights442]
    have h : ¬(|weightsSum weights442 - 1| > 1 / 100) := by
      rw [e0, abs_zero]; norm_num
    unfold normalize_and_prioritize
    rw [if_neg h]
    rfl
  · have e1 : weightsSum weights555 - 1 = 1 / 2 := by
      norm_num [weightsSum, weights555]
    have h : |weightsSum weights555 - 1| > 1 / 100 := by
      rw [e1, abs_of_nonneg (by norm_num : (0 : ℚ) ≤ 1 / 2)]; norm_num
    unfold normalize_and_prioritize
    rw [if_pos h]

/-- C6: whenever the prioritization scorer returns an ordered sequence,
adjacent elements satisfy `total_score[i] >= total_score[i+1]` — the
output is sorted descending by total score. -/
theorem c6_sorted_descending (controls : List (Str × Ctl)) (w : Weights)
    (out : List Scored)
    (h : normalize_and_prioritize controls w = Except.ok out) :
    List.Chain' (fun a b => b.total_score ≤ a.total_score) out := by
  unfold normalize_and_prioritize at h
  split at h
  · cases h
  · injection h with h'
    subst h'
    exact (sortDesc_pairwise _).chain'

/-- C6 (witness): the sortedness theorem applied to the concrete
one-control catalog and the weights {0.4, 0.4, 0.2}. -/
theorem c6_sorted_descending_witness :
    normalize_and_prioritize (load_nist_controls catAC) weights442 =
      Except.ok [⟨"AC-2".data, ⟨"Account Management".data, "ac".data,
        "Access Control".data, 7, 0, 0⟩, 7 / 5⟩] ∧
    List.Chain' (fun a b : Scored => b.total_score ≤ a.total_score)
      [⟨"AC-2".data, ⟨"Account Management".data, "ac".data,
        "Access Control".data, 7, 0, 0⟩, 7 / 5⟩] := by
  have h : normalize_and_prioritize (load_nist_controls catAC) weights442 =
      Except.ok [⟨"AC-2".data, ⟨"Account Management".data, "ac".data,
        "Access Control".data, 7, 0, 0⟩, 7 / 5⟩] := by
    norm_num +decide [normalize_and_prioritize, weightsSum, weights442,
      totalScore, sortDesc, insertDesc, load_nist_controls, catAC, dictSet,
      containsKey, upperStr, upperChar]
  exact ⟨h, c6_sorted_descending _ _ _ h⟩

/-- C1 (counterexample): a reachable aggregate whose weighted total,
`0.4 * 0.03 + 0.4 * 0 + 0.2 * 7 = 1.412`, is returned by the scorer
unrounded — it differs from its own 2-decimal rounding, so the scorer
does not round total scores. -/
theorem c1_counterexample :
    normalize_and_prioritize
        (map_risks_to_controls catAC [] [("test".data, [riskSmall])])
        weights442 =
      Except.ok [⟨"AC-2".data, ⟨"Account Management".data, "ac".data,
        "Access Control".data, 7, 3 / 100, 0⟩, 353 / 250⟩] ∧
    round2 (353 / 250) ≠ 353 / 250 := by
  constructor
  · norm_num +decide [normalize_and_prioritize, weightsSum, weights442,
      totalScore, sortDesc, insertDesc, map_risks_to_controls,
      load_nist_controls, catAC, dictSet, containsKey, upperStr, upperChar,
      applyRisk, applyControl, controlsToMap, riskSmall, bump, pyMax]
  · norm_num [round2, round_eq]

/-- C1 (amended): every element of the scorer's output has
`total_score = w_e * max_exploitation + w_s * max_severity +
w_a * applicability`, the exact weighted sum of the stored dimensions,
with no rounding (rounding to 2 decimals happens only in the reporting
layer, main.py line 115). -/
theorem c1_amended_total_formula (controls : List (Str × Ctl))
    (w : Weights) (out : List Scored)
    (h : normalize_and_prioritize controls w = Except.ok out) :
    ∀ s ∈ out, s.total_score =
      w.exploitation * s.ctl.max_exploitation +
        w.severity * s.ctl.max_severity +
        w.applicability * s.ctl.applicability := by
  unfold normalize_and_prioritize at h
  split at h
  · cases h
  · injection h with h'
    subst h'
    intro s hs
    have hs' := (mem_sortDesc s _).mp hs
    rcases List.mem_map.mp hs' with ⟨p, _, rfl⟩
    simp [totalScore]

/-- C1 (witness): the amended formula applied at the one-control catalog
and the weights {0.4, 0.4, 0.2}. -/
theorem c1_amended_witness :
    normalize_and_prioritize (load_nist_controls catAC) weights442 =
      Except.ok [⟨"AC-2".data, ⟨"Account Management".data, "ac".data,
        "Access Control".data, 7, 0, 0⟩, 7 / 5⟩] ∧
    (⟨"AC-2".data, ⟨"Account Management".data, "ac".data,
      "Access Control".data, 7, 0, 0⟩, 7 / 5⟩ : Scored).total_score =
      weights442.exploitation * 0 + weights442.severity * 0 +
        weights442.applicability * 7 := by
  have h : normalize_and_prioritize (load_nist_controls catAC) weights442 =
      Except.ok [⟨"AC-2".data, ⟨"Account Management".data, "ac".data,
        "Access Control".data, 7, 0, 0⟩, 7 / 5⟩] := by
    norm_num +decide [normalize_and_prioritize, weightsSum, weights442,
      totalScore, sortDesc, insertDesc, load_nist_controls, catAC, dictSet,
      containsKey, upperStr, upperChar]
  exact ⟨h, c1_amended_total_formula _ _ _ h _ (by simp)⟩

/-- Python's `max` agrees with the lattice `max` on ℚ. -/
theorem pyMax_eq_max (a b : ℚ) : pyMax a b = max a b := by
  unfold pyMax
  rcases le_total a b with h | h
  · by_cases h2 : b ≤ a
    · rw [if_pos h2, max_eq_right h]
      exact le_antisymm h h2
    · rw [if_neg h2, max_eq_right h]
  · rw [if_pos h, max_eq_left h]

/-- Two maxima updates on the same control commute. -/
theorem bump_comm (r₁ r₂ : Risk) (c : Ctl) :
    bump r₁ (bump r₂ c) = bump r₂ (bump r₁ c) := by
  simp [bump, pyMax_eq_max, sup_right_comm]

/-- On a present key, `applyControl` is the in-place map. -/
theorem applyControl_of_contains (r : Risk) (m : List (Str × Ctl)) (c : Str)
    (h : containsKey m (upperStr c) = true) :
    applyControl r m c = m.map (fun p =>
      if p.1 = upperStr c then (p.1, bump r p.2) else p) := by
  simp only [applyControl]
  rw [if_pos h]

/-- On an absent key, `applyControl` is the identity. -/
theorem applyControl_of_not_contains (r : Risk) (m : List (Str × Ctl))
    (c : Str) (h : ¬containsKey m (upperStr c) = true) :
    applyControl r m c = m := by
  simp only [applyControl]
  rw [if_neg h]

/-- The step `applyControl` preserves key membership. -/
theorem containsKey_applyControl (r : Risk) (m : List (Str × Ctl))
    (c k : Str) : containsKey (applyControl r m c) k = containsKey m k := by
  rw [containsKey_eq_keys, containsKey_eq_keys, keys_applyControl]

/-- Per-control updates for two risks commute, whatever the two control
identifiers are. -/
theorem applyControl_comm (r₁ r₂ : Risk) (m : List (Str × Ctl))
    (c₁ c₂ : Str) :
    applyControl r₁ (applyControl r₂ m c₂) c₁ =
      applyControl r₂ (applyControl r₁ m c₁) c₂ := by
  by_cases h₁ : containsKey m (upperStr c₁) = true
  · by_cases h₂ : containsKey m (upperStr c₂) = true
    · have k₁ : containsKey (applyControl r₂ m c₂) (upperStr c₁) = true := by
        rw [containsKey_applyControl]; exact h₁
      have k₂ : containsKey (applyControl r₁ m c₁) (upperStr c₂) = true := by
        rw [containsKey_applyControl]; exact h₂
      rw [applyControl_of_contains r₁ _ c₁ k₁,
        applyControl_of_contains r₂ _ c₂ k₂,
        applyControl_of_contains r₂ m c₂ h₂,
        applyControl_of_contains r₁ m c₁ h₁,
        List.map_map, List.map_map]
      apply List.map_congr_left
      intro p _
      by_cases hp₁ : p.1 = upperStr c₁
      · by_cases hp₂ : p.1 = upperStr c₂
        · have hk : upperStr c₁ = upperStr c₂ := hp₁.symm.trans hp₂
          simp [hp₁, hp₂, hk, bump_comm]
        · have hk : ¬upperStr c₁ = upperStr c₂ :=
            fun h => hp₂ (hp₁.trans h)
          simp [hp₁, hp₂, hk]
      · by_cases hp₂ : p.1 = upperStr c₂
        · have hk : ¬upperStr c₂ = upperStr c₁ :=
            fun h => hp₁ (hp₂.trans h)
          simp [hp₁, hp₂, hk]
        · simp [hp₁, hp₂]
    · have k₂ : ¬containsKey (applyControl r₁ m c₁) (upperStr c₂) = true := by
        rw [containsKey_applyControl]; exact h₂
      rw [applyControl_of_not_contains r₂ m c₂ h₂,
        applyControl_of_not_contains r₂ _ c₂ k₂]
  · have k₁ : ¬containsKey (applyControl r₂ m c₂) (upperStr c₁) = true := by
      rw [containsKey_applyControl]; exact h₁
    rw [applyControl_of_not_contains r₁ m c₁ h₁,
      applyControl_of_not_contains r₁ _ c₁ k₁]

/-- A single per-control update commutes past a fold of per-control
updates for another risk. -/
theorem applyControl_foldl_comm (r₁ r₂ : Risk) (L : List Str) :
    ∀ (m : List (Str × Ctl)) (c : Str),
      applyControl r₁ (L.foldl (applyControl r₂) m) c =
        L.foldl (applyControl r₂) (applyControl r₁ m c) := by
  induction L with
  | nil => intro m c; rfl
  | cons d ds ih =>
    intro m c
    rw [List.foldl_cons, List.foldl_cons, ih, applyControl_comm]

/-- Folds of per-control updates for two risks commute. -/
theorem foldl_applyControl_swap (r₁ r₂ : Risk) (L₁ L₂ : List Str) :
    ∀ m : List (Str × Ctl),
      L₁.foldl (applyControl r₁) (L₂.foldl (applyControl r₂) m) =
        L₂.foldl (applyControl r₂) (L₁.foldl (applyControl r₁) m) := by
  induction L₁ with
  | nil => intro m; rfl
  | cons c cs ih =>
    intro m
    rw [List.foldl_cons, applyControl_foldl_comm, ih, ← List.foldl_cons]

/-- Processing two (source, risk) pairs commutes: the aggregation step
is a fold of commuting maxima updates. -/
theorem applyRisk_comm (am : List (Str × List Str)) (m : List (Str × Ctl))
    (a b : Str × Risk) :
    applyRisk am (applyRisk am m a.1 a.2) b.1 b.2 =
      applyRisk am (applyRisk am m b.1 b.2) a.1 a.2 := by
  unfold applyRisk
  exact foldl_applyControl_swap b.2 a.2 _ _ m

/-- A left fold of a commuting step function is invariant under
permutation of the input list. -/
theorem foldl_perm_of_comm {α β : Type} (f : β → α → β)
    (hc : ∀ m a b, f (f m a) b = f (f m b) a) {l₁ l₂ : List α}
    (h : l₁.Perm l₂) : ∀ m, l₁.foldl f m = l₂.foldl f m := by
  induction h with
  | nil => intro m; rfl
  | cons x _ ih => intro m; rw [List.foldl_cons, List.foldl_cons]; exact ih _
  | swap x y l =>
    intro m
    rw [List.foldl_cons, List.foldl_cons, List.foldl_cons, List.foldl_cons,
      hc]
  | trans _ _ ih₁ ih₂ => intro m; rw [ih₁, ih₂]

/-- The double source/risk loop of the aggregator equals the single fold
over the flattened (source, risk) stream. -/
theorem map_risks_eq_flat_fold (am : List (Str × List Str))
    (rs : List (Str × List Risk)) :
    ∀ m : List (Str × Ctl),
      rs.foldl (fun m p => p.2.foldl (fun m r => applyRisk am m p.1 r) m) m =
        (flattenRisks rs).foldl (fun m q => applyRisk am m q.1 q.2) m := by
  induction rs with
  | nil => intro m; rfl
  | cons p t ih =>
    intro m
    show (t.foldl _ (p.2.foldl (fun m r => applyRisk am m p.1 r) m)) =
      (p.2.map (fun r => (p.1, r)) ++ flattenRisks t).foldl _ m
    rw [List.foldl_append, ih, List.foldl_map]

/-- The aggregator `map_risks_to_controls` equals the flattened-stream fold. -/
theorem map_risks_eq_flat (cat : List CatGroup) (am : List (Str × List Str))
    (rs : List (Str × List Risk)) :
    map_risks_to_controls cat am rs =
      mapRisksFlat cat am (flattenRisks rs) :=
  map_risks_eq_flat_fold am rs (load_nist_controls cat)

/-- C5: the per-control `max_exploitation` and `max_severity` maxima are
independent of the order in which sources and records are processed — any
two risk mappings whose (source, record) streams are permutations of each
other aggregate to identical maxima for every control. -/
theorem c5_aggregation_order_independent (cat : List CatGroup)
    (am : List (Str × List Str)) (rs₁ rs₂ : List (Str × List Risk))
    (h : (flattenRisks rs₁).Perm (flattenRisks rs₂)) (cid : Str) :
    (lookupKey (map_risks_to_controls cat am rs₁) cid).map
        (fun c => (c.max_exploitation, c.max_severity)) =
      (lookupKey (map_risks_to_controls cat am rs₂) cid).map
        (fun c => (c.max_exploitation, c.max_severity)) := by
  rw [map_risks_eq_flat, map_risks_eq_flat]
  unfold mapRisksFlat
  rw [foldl_perm_of_comm _ (fun m a b => applyRisk_comm am m a b) h]

/-- C5 (witness): the order-independence theorem applied to the two
end-to-end records fed in the two possible orders. -/
theorem c5_order_independent_witness :
    (flattenRisks [("a".data, [riskF1, riskF2])]).Perm
        (flattenRisks [("a".data, [riskF2, riskF1])]) ∧
    (lookupKey (map_risks_to_controls catAC []
        [("a".data, [riskF1, riskF2])]) "AC-2".data).map
        (fun c => (c.max_exploitation, c.max_severity)) =
      (lookupKey (map_risks_to_controls catAC []
        [("a".data, [riskF2, riskF1])]) "AC-2".data).map
        (fun c => (c.max_exploitation, c.max_severity)) := by
  have hp : (flattenRisks [("a".data, [riskF1, riskF2])]).Perm
      (flattenRisks [("a".data, [riskF2, riskF1])]) := by
    show [("a".data, riskF1), ("a".data, riskF2)].Perm
      [("a".data, riskF2), ("a".data, riskF1)]
    exact List.Perm.swap _ _ _
  exact ⟨hp, c5_aggregation_order_independent catAC [] _ _ hp "AC-2".data⟩

/-- A `Nat` below the surrogate range packs and unpacks through
`Char.ofNat` unchanged. -/
theorem toNat_ofNat_of_small {n : Nat} (h : n < 55296) :
    (Char.ofNat n).toNat = n := by
  have hv : n.isValidChar := Or.inl h
  simp [Char.ofNat, hv, Char.ofNatAux, Char.toNat, UInt32.toNat,
    BitVec.toNat_ofNatLt]

/-- On an ASCII lowercase letter, `upperChar` subtracts 32. -/
theorem upperChar_toNat_of_lower {c : Char}
    (h : 97 ≤ c.toNat ∧ c.toNat ≤ 122) :
    (upperChar c).toNat = c.toNat - 32 := by
  unfold upperChar
  rw [if_pos h]
  exact toNat_ofNat_of_small (by omega)

/-- The map `upperChar` fixes every character that is not an ASCII lowercase
letter. -/
theorem upperChar_of_not_lower {c : Char}
    (h : ¬(97 ≤ c.toNat ∧ c.toNat ≤ 122)) : upperChar c = c := by
  unfold upperChar
  rw [if_neg h]

/-- The output of `upperChar` is never an ASCII lowercase letter. -/
theorem upperChar_not_lower (c : Char) :
    ¬(97 ≤ (upperChar c).toNat ∧ (upperChar c).toNat ≤ 122) := by
  by_cases h : 97 ≤ c.toNat ∧ c.toNat ≤ 122
  · rw [upperChar_toNat_of_lower h]
    omega
  · rw [upperChar_of_not_lower h]
    exact h

/-- The map `upperChar` is idempotent. -/
theorem upperChar_idem (c : Char) : upperChar (upperChar c) = upperChar c :=
  upperChar_of_not_lower (upperChar_not_lower c)

/-- The map `upperStr` is idempotent (Python `s.upper().upper() == s.upper()`). -/
theorem upperStr_idem (s : Str) : upperStr (upperStr s) = upperStr s := by
  unfold upperStr
  rw [List.map_map]
  apply List.map_congr_left
  intro c _
  exact upperChar_idem c

/-- Characters of an `upperStr` image are fixed by `upperChar`. -/
theorem mem_upperStr_fixed {s : Str} {c : Char} (h : c ∈ upperStr s) :
    upperChar c = c := by
  rcases List.mem_map.mp h with ⟨d, _, rfl⟩
  exact upperChar_idem d

/-- Distinct code points give distinct characters. -/
theorem char_ne_of_toNat_ne {c d : Char} (h : c.toNat ≠ d.toNat) : c ≠ d :=
  fun e => h (e ▸ rfl)

/-- ASCII digits are fixed by `upperChar`. -/
theorem upperChar_of_digit {c : Char} (h : isAsciiDigit c = true) :
    upperChar c = c := by
  simp only [isAsciiDigit, Bool.and_eq_true, decide_eq_true_eq] at h
  exact upperChar_of_not_lower (by omega)

/-- The map `upperChar` sends an ASCII letter to an ASCII uppercase letter. -/
theorem upperChar_alpha_range {c : Char} (h : isAsciiAlpha c = true) :
    65 ≤ (upperChar c).toNat ∧ (upperChar c).toNat ≤ 90 := by
  simp only [isAsciiAlpha, Bool.or_eq_true, Bool.and_eq_true,
    decide_eq_true_eq] at h
  rcases h with h | h
  · rw [upperChar_of_not_lower (by omega)]
    exact h
  · rw [upperChar_toNat_of_lower h]
    omega

/-- The map `upperChar` preserves the ASCII letter class. -/
theorem isAsciiAlpha_upperChar {c : Char} (h : isAsciiAlpha c = true) :
    isAsciiAlpha (upperChar c) = true := by
  have h2 := upperChar_alpha_range h
  simp only [isAsciiAlpha, Bool.or_eq_true, Bool.and_eq_true,
    decide_eq_true_eq]
  omega

/-- An ASCII letter is not the dash. -/
theorem alpha_ne_dash {c : Char} (h : isAsciiAlpha c = true) :
    (c != '-') = true := by
  simp only [isAsciiAlpha, Bool.or_eq_true, Bool.and_eq_true,
    decide_eq_true_eq] at h
  simp only [bne_iff_ne, ne_eq]
  exact char_ne_of_toNat_ne (by show c.toNat ≠ 45; omega)

/-- A take while a predicate holds stops exactly at the first failing element. -/
theorem takeWhile_append_cons (p : Char → Bool) (l₁ : Str) (d : Char)
    (l₂ : Str) (h₁ : ∀ c ∈ l₁, p c = true) (hd : p d = false) :
    (l₁ ++ d :: l₂).takeWhile p = l₁ := by
  induction l₁ with
  | nil => simp [List.takeWhile_cons, hd]
  | cons c cs ih =>
    rw [List.cons_append, List.takeWhile_cons,
      if_pos (h₁ c (List.mem_cons_self c cs))]
    rw [ih (fun x hx => h₁ x (List.mem_cons_of_mem c hx))]

/-- A drop while a predicate holds drops exactly up to the first failing element. -/
theorem dropWhile_append_cons (p : Char → Bool) (l₁ : Str) (d : Char)
    (l₂ : Str) (h₁ : ∀ c ∈ l₁, p c = true) (hd : p d = false) :
    (l₁ ++ d :: l₂).dropWhile p = d :: l₂ := by
  induction l₁ with
  | nil => simp [List.dropWhile_cons, hd]
  | cons c cs ih =>
    rw [List.cons_append, List.dropWhile_cons,
      if_pos (h₁ c (List.mem_cons_self c cs))]
    exact ih (fun x hx => h₁ x (List.mem_cons_of_mem c hx))

/-- The output of `dropWhile` is empty or starts with a failing element. -/
theorem dropWhile_nil_or_head_false (p : Char → Bool) (l : Str) :
    l.dropWhile p = [] ∨
      ∃ c t, l.dropWhile p = c :: t ∧ p c = false := by
  induction l with
  | nil => left; rfl
  | cons a t ih =>
    by_cases h : p a = true
    · rw [List.dropWhile_cons, if_pos h]
      exact ih
    · right
      exact ⟨a, t, by rw [List.dropWhile_cons, if_neg h],
        Bool.eq_false_iff.mpr h⟩

/-- The stripped number is never empty. -/
theorem stripLeadingZeros_ne_nil (num : Str) :
    stripLeadingZeros num ≠ [] := by
  simp only [stripLeadingZeros]
  split
  · simp
  · rename_i h
    exact List.isEmpty_eq_false.mp (Bool.eq_false_iff.mpr h)

/-- Stripping preserves the all-digit property. -/
theorem stripLeadingZeros_digits {num : Str}
    (h : ∀ c ∈ num, isAsciiDigit c = true) :
    ∀ c ∈ stripLeadingZeros num, isAsciiDigit c = true := by
  simp only [stripLeadingZeros]
  split
  · intro c hc
    rw [List.mem_singleton.mp hc]
    decide
  · intro c hc
    exact h c ((List.dropWhile_sublist _).mem hc)

/-- Stripping leading zeros is idempotent. -/
theorem stripLeadingZeros_idem (num : Str) :
    stripLeadingZeros (stripLeadingZeros num) = stripLeadingZeros num := by
  rcases dropWhile_nil_or_head_false (fun c => c == '0') num with h | ⟨c, t, h, hc⟩
  · have e : stripLeadingZeros num = ['0'] := by
      simp [stripLeadingZeros, h]
    rw [e]
    decide
  · have e : stripLeadingZeros num = c :: t := by
      simp [stripLeadingZeros, h]
    rw [e]
    simp [stripLeadingZeros, List.dropWhile_cons, hc]

/-- Inversion of a successful regex match: the input splits as a nonempty
all-letter family, a dash, and a nonempty all-digit number. -/
theorem famNum_inv {u fam num : Str} (h : famNum u = some (fam, num)) :
    u = fam ++ '-' :: num ∧ fam ≠ [] ∧
      (∀ c ∈ fam, isAsciiAlpha c = true) ∧ num ≠ [] ∧
      (∀ c ∈ num, isAsciiDigit c = true) := by
  unfold famNum at h
  rcases hd : u.dropWhile (fun c => c != '-') with _ | ⟨d, rest⟩
  · rw [hd] at h
    cases h
  · rw [hd] at h
    by_cases hdash : d = '-'
    · subst hdash
      simp only [] at h
      split at h
      · rename_i hcond
        injection h with h'
        injection h' with hf hn
        subst hf
        subst hn
        simp only [Bool.and_eq_true, Bool.not_eq_true',
          List.isEmpty_eq_false, List.all_eq_true] at hcond
        refine ⟨?_, hcond.1.1.1, hcond.1.1.2, hcond.1.2, hcond.2⟩
        conv_lhs => rw [← List.takeWhile_append_dropWhile
          (fun c => c != '-') u]
        rw [hd]
      · cases h
    · have hdf : (d != '-') = false := by
        rcases dropWhile_nil_or_head_false (fun c => c != '-') u with h2 | ⟨c, t, h2, hc⟩
        · rw [h2] at hd; cases hd
        · rw [h2] at hd
          injection hd with e1 e2
          subst e1
          exact hc
      have : d = '-' := by
        by_contra hne
        rw [bne_eq_false_iff_eq] at hdf
        exact hne hdf
      exact absurd this hdash

/-- Construction of a successful regex match from the shape. -/
theorem famNum_of_shape (fam num : Str) (h₁ : fam ≠ [])
    (h₂ : ∀ c ∈ fam, isAsciiAlpha c = true) (h₃ : num ≠ [])
    (h₄ : ∀ c ∈ num, isAsciiDigit c = true) :
    famNum (fam ++ '-' :: num) = some (fam, num) := by
  unfold famNum
  have hfam : ∀ c ∈ fam, ((fun c => c != '-') c) = true :=
    fun c hc => alpha_ne_dash (h₂ c hc)
  have hdash : ((fun c => c != '-') '-') = false := by decide
  rw [takeWhile_append_cons _ fam '-' num hfam hdash,
    dropWhile_append_cons _ fam '-' num hfam hdash]
  simp only []
  rw [if_pos]
  simp only [Bool.and_eq_true, Bool.not_eq_true', List.isEmpty_eq_false,
    List.all_eq_true]
  exact ⟨⟨⟨h₁, h₂⟩, h₃⟩, h₄⟩

/-- Normalization of a FAMILY-NUMBER shaped identifier: uppercase the
family and strip the number's leading zeros. -/
theorem normalize_of_shape (fam num : Str) (h₁ : fam ≠ [])
    (h₂ : ∀ c ∈ fam, isAsciiAlpha c = true) (h₃ : num ≠ [])
    (h₄ : ∀ c ∈ num, isAsciiDigit c = true) :
    normalizeControlId (fam ++ '-' :: num) =
      upperStr fam ++ '-' :: stripLeadingZeros num := by
  simp only [normalizeControlId]
  have hnum : upperStr num = num :=
    (List.map_congr_left (fun c hc => upperChar_of_digit (h₄ c hc))).trans
      (List.map_id num)
  have hu : upperStr (fam ++ '-' :: num) = upperStr fam ++ '-' :: num := by
    simp only [upperStr, List.map_append, List.map_cons]
    rw [show upperChar '-' = '-' by decide]
    exact congrArg _ (congrArg _ hnum)
  rw [hu]
  have hfam2 : ∀ c ∈ upperStr fam, isAsciiAlpha c = true := by
    intro c hc
    rcases List.mem_map.mp hc with ⟨d, hd, rfl⟩
    exact isAsciiAlpha_upperChar (h₂ d hd)
  have hfam1 : upperStr fam ≠ [] := by
    intro e
    exact h₁ (by simpa [upperStr] using e)
  rw [famNum_of_shape (upperStr fam) num hfam1 hfam2 h₃ h₄]

/-- Identifiers not matching the FAMILY-NUMBER regex are returned
upper-cased, otherwise unchanged. -/
theorem normalize_of_none {s : Str} (h : famNum (upperStr s) = none) :
    normalizeControlId s = upperStr s := by
  simp only [normalizeControlId]
  rw [h]

/-- The identifier normalizer is idempotent. -/
theorem normalizeControlId_idem (s : Str) :
    normalizeControlId (normalizeControlId s) = normalizeControlId s := by
  cases hf : famNum (upperStr s) with
  | none =>
    rw [normalize_of_none hf]
    have h2 : famNum (upperStr (upperStr s)) = none := by
      rw [upperStr_idem]
      exact hf
    rw [normalize_of_none h2, upperStr_idem]
  | some pr =>
    obtain ⟨fam, num⟩ := pr
    obtain ⟨hu, h1, h2, h3, h4⟩ := famNum_inv hf
    have e : normalizeControlId s = fam ++ '-' :: stripLeadingZeros num := by
      simp only [normalizeControlId]
      rw [hf]
    rw [e]
    have hfix : ∀ c ∈ fam, upperChar c = c := by
      intro c hc
      have hm : c ∈ upperStr s := by
        rw [hu]
        exact List.mem_append_left _ hc
    -- fam sits inside the upper-cased input, so its characters are fixed
      exact mem_upperStr_fixed hm
    have eu : upperStr fam = fam :=
      (List.map_congr_left hfix).trans (List.map_id fam)
    rw [normalize_of_shape fam (stripLeadingZeros num) h1 h2
      (stripLeadingZeros_ne_nil num) (stripLeadingZeros_digits h4),
      eu, stripLeadingZeros_idem]

/-- C3: the identifier normalizer (data_processing.py line 79) sends a
FAMILY-NUMBER identifier to the uppercase family dash the number with
leading zeros stripped (`AC-02 ↦ AC-2`, `ca-007 ↦ CA-7`); identifiers not
matching that shape are returned upper-cased but otherwise unchanged
(the empty string in particular is unchanged), and normalization is
idempotent on every string. -/
theorem c3_normalizer_contract :
    (∀ fam num : Str, fam ≠ [] → (∀ c ∈ fam, isAsciiAlpha c = true) →
      num ≠ [] → (∀ c ∈ num, isAsciiDigit c = true) →
      normalizeControlId (fam ++ '-' :: num) =
        upperStr fam ++ '-' :: stripLeadingZeros num) ∧
    normalizeControlId "AC-02".data = "AC-2".data ∧
    normalizeControlId "ca-007".data = "CA-7".data ∧
    (∀ s : Str, famNum (upperStr s) = none →
      normalizeControlId s = upperStr s) ∧
    normalizeControlId [] = [] ∧
    (∀ s : Str, normalizeControlId (normalizeControlId s) =
      normalizeControlId s) := by
  refine ⟨normalize_of_shape, ?_, ?_, fun s h => normalize_of_none h, rfl,
    normalizeControlId_idem⟩
  · decide
  · decide

/-- C3 (witness): the normalizer contract applied at concrete
identifiers — a shaped identifier, a non-shaped identifier, and an
idempotence instance. -/
theorem c3_normalizer_witness :
    normalizeControlId ("ac".data ++ '-' :: "02".data) =
      upperStr "ac".data ++ '-' :: stripLeadingZeros "02".data ∧
    normalizeControlId "AC+2".data = upperStr "AC+2".data ∧
    normalizeControlId (normalizeControlId "xy-007".data) =
      normalizeControlId "xy-007".data :=
  ⟨c3_normalizer_contract.1 "ac".data "02".data (by decide) (by decide)
      (by decide) (by decide),
   c3_normalizer_contract.2.2.2.1 "AC+2".data (by decide),
   c3_normalizer_contract.2.2.2.2.2 "xy-007".data⟩

end RiskToNIST
